import Mathlib

/-
Shallow embedding of the claudesrc conversation engine and tools.

Sources embedded:
  src/src/claudesrc/conversation.py  (class Conversation, user_prompt loop)
  src/src/claudesrc/tool.py          (Tool protocol)
  src/scripts/main.py                (SearchFiles.call_tool, transcript persistence)

The model transport (anthropic.Client.messages.create) is an external
collaborator; the loop consumes a scripted list of responses, one per model
call, so that one `userPromptLoop` step corresponds to one model call.
A Python exception is modelled as an `Except.error` outcome; because
`self.turns` is mutated in place, the embedding returns the turn list
alongside the outcome so that turns appended before a fault are retained.
-/

namespace Claudesrc

/-- Structured values: tool inputs (`ToolUse.input` dictionaries) and the
JSON transcript written by `json.dump(convo.turns, fh)`. -/
inductive Json where
  | null
  | bool (b : Bool)
  | num (n : Int)
  | str (s : String)
  | arr (elems : List Json)
  | obj (fields : List (String × Json))

/-- Message roles ("user" / "assistant"). -/
inductive Role where
  | user
  | assistant

/-- Content blocks of a message: anthropic.types TextBlock, ToolUseBlock and
ToolResultBlockParam. -/
inductive ContentBlock where
  | text (s : String)
  | toolUse (id : String) (name : String) (input : Json)
  | toolResult (toolUseId : String) (content : String) (isError : Bool)

/-- The `isinstance(last, ToolUseBlock)` test of conversation.py line 55. -/
def ContentBlock.isToolUse : ContentBlock → Bool
  | .toolUse _ _ _ => true
  | _ => false

/-- claudesrc.tool.Tool: a named, described, schema-bearing capability.
`call_tool` may fault (a raised Python exception is the `.error` case). -/
structure Tool where
  name : String
  description : String
  input_schema : Json
  call_tool : Json → Except String String

/-- A model response (anthropic.types.Message): a role and ordered content. -/
structure Message where
  role : Role
  content : List ContentBlock

/-- Turn content (MessageParam.content): either a plain string (the user
prompt) or a list of content blocks. -/
inductive TurnContent where
  | ofString (s : String)
  | blocks (bs : List ContentBlock)

/-- One turn of the history (anthropic.types.MessageParam). -/
structure Turn where
  role : Role
  content : TurnContent

/-- Python dict insertion: overwrite in place if the key exists (keeping its
original position), otherwise append at the end. -/
def dictInsert : List (String × Tool) → String → Tool → List (String × Tool)
  | [], k, v => [(k, v)]
  | (k', v') :: rest, k, v =>
      if k' == k then (k, v) :: rest else (k', v') :: dictInsert rest k v

/-- `self.tools = {t.name: t for t in tools}` (conversation.py line 32):
the registry built once at construction, as a Python dict comprehension. -/
def buildTools (tools : List Tool) : List (String × Tool) :=
  tools.foldl (fun m t => dictInsert m t.name t) []

/-- `self.tools[name]` as a total lookup; `none` is the KeyError case. -/
def lookupTool (m : List (String × Tool)) (name : String) : Option Tool :=
  match m.find? (fun kv => kv.1 == name) with
  | some kv => some kv.2
  | none => none

/-- The engine state: the registry dict and the mutable `self.turns` list. -/
structure Conversation where
  tools : List (String × Tool)
  turns : List Turn

/-- `Conversation.__init__` with an empty history. -/
def mkConversation (tools : List Tool) : Conversation :=
  Conversation.mk (buildTools tools) []

/-- The distinct ways `user_prompt` can raise: the transport failing (here:
the scripted response list running out), `message.content[-1]` on an empty
list (IndexError), `self.tools[last.name]` missing (KeyError), and a fault
raised by `tool.call_tool` (uncaught, so it aborts the loop). -/
inductive EngineError where
  | transportError
  | emptyContent
  | toolNotFound (name : String)
  | toolFault (name : String) (message : String)

/-- The `while True:` loop of `Conversation.user_prompt` (conversation.py
lines 43-76).  Each step consumes one scripted model response (= one call to
`client.messages.create`), appends the assistant turn verbatim, inspects only
the final content block, and on a tool-use request looks the tool up, invokes
it, and appends a user turn holding exactly one ToolResult with
`is_error=False` before looping.  Returns the turn list as left by the
mutation, the responses not yet consumed, and the outcome. -/
def userPromptLoop (tools : List (String × Tool)) :
    List Message → List Turn →
    List Turn × List Message × Except EngineError Message
  | [], turns => (turns, [], Except.error EngineError.transportError)
  | m :: rest, turns =>
    let turns' := turns ++ [Turn.mk m.role (TurnContent.blocks m.content)]
    match m.content.getLast? with
    | none => (turns', rest, Except.error EngineError.emptyContent)
    | some (ContentBlock.toolUse id name input) =>
      match lookupTool tools name with
      | none => (turns', rest, Except.error (EngineError.toolNotFound name))
      | some t =>
        match t.call_tool input with
        | Except.error e => (turns', rest, Except.error (EngineError.toolFault name e))
        | Except.ok response =>
          userPromptLoop tools rest
            (turns' ++ [Turn.mk Role.user
              (TurnContent.blocks [ContentBlock.toolResult id response false])])
    | some _ => (turns', rest, Except.ok m)

/-- `Conversation.user_prompt`: append the user prompt turn (whose content is
the plain prompt string), then run the loop. -/
def Conversation.user_prompt (c : Conversation) (responses : List Message)
    (prompt : String) : List Turn × List Message × Except EngineError Message :=
  userPromptLoop c.tools responses
    (c.turns ++ [Turn.mk Role.user (TurnContent.ofString prompt)])

/-! ## Transcript serialization (scripts/main.py lines 292-301)

`json.dump(convo.turns, fh)` / `json.load(fh)`: the turn history converted to
a JSON value and back. -/

def encodeRole : Role → String
  | Role.user => "user"
  | Role.assistant => "assistant"

def decodeRole : String → Option Role
  | "user" => some Role.user
  | "assistant" => some Role.assistant
  | _ => none

def encodeBlock : ContentBlock → Json
  | ContentBlock.text s =>
      Json.obj [("type", Json.str "text"), ("text", Json.str s)]
  | ContentBlock.toolUse id name input =>
      Json.obj [("type", Json.str "tool_use"), ("id", Json.str id),
                ("name", Json.str name), ("input", input)]
  | ContentBlock.toolResult id content isError =>
      Json.obj [("type", Json.str "tool_result"), ("tool_use_id", Json.str id),
                ("content", Json.str content), ("is_error", Json.bool isError)]

def decodeBlock : Json → Option ContentBlock
  | Json.obj [("type", Json.str "text"), ("text", Json.str s)] =>
      some (ContentBlock.text s)
  | Json.obj [("type", Json.str "tool_use"), ("id", Json.str id),
              ("name", Json.str name), ("input", input)] =>
      some (ContentBlock.toolUse id name input)
  | Json.obj [("type", Json.str "tool_result"), ("tool_use_id", Json.str id),
              ("content", Json.str content), ("is_error", Json.bool e)] =>
      some (ContentBlock.toolResult id content e)
  | _ => none

def decodeBlocks : List Json → Option (List ContentBlock)
  | [] => some []
  | j :: js =>
    match decodeBlock j, decodeBlocks js with
    | some b, some bs => some (b :: bs)
    | _, _ => none

def encodeContent : TurnContent → Json
  | TurnContent.ofString s => Json.str s
  | TurnContent.blocks bs => Json.arr (bs.map encodeBlock)

def decodeContent : Json → Option TurnContent
  | Json.str s => some (TurnContent.ofString s)
  | Json.arr js => (decodeBlocks js).map TurnContent.blocks
  | _ => none

def encodeTurn (t : Turn) : Json :=
  Json.obj [("role", Json.str (encodeRole t.role)),
            ("content", encodeContent t.content)]

def decodeTurn : Json → Option Turn
  | Json.obj [("role", Json.str r), ("content", c)] =>
    match decodeRole r, decodeContent c with
    | some role, some content => some (Turn.mk role content)
    | _, _ => none
  | _ => none

def decodeTurnList : List Json → Option (List Turn)
  | [] => some []
  | j :: js =>
    match decodeTurn j, decodeTurnList js with
    | some t, some ts => some (t :: ts)
    | _, _ => none

def serializeTurns (ts : List Turn) : Json :=
  Json.arr (ts.map encodeTurn)

def deserializeTurns : Json → Option (List Turn)
  | Json.arr js => decodeTurnList js
  | _ => none

/-! ## SearchFiles.call_tool (scripts/main.py lines 157-190) -/

namespace SearchFiles

/-- The fixed result-line cap of SearchFiles. -/
def MAX_RESULTS : Nat := 1000

/-- subprocess.CalledProcessError, as far as call_tool inspects it. -/
structure ProcessError where
  returncode : Int

/-- The post-subprocess part of `SearchFiles.call_tool`: the rg invocation is
an external collaborator, so its outcome (`subprocess.check_output` returning
`out`, or raising CalledProcessError) is the argument.  `out.count("\n")` is
the newline count of the output; on overflow the output is cut to its first
MAX_RESULTS lines (Python `"\n".join(out.split("\n")[:MAX_RESULTS])`) and the
truncation marker is appended; a process failure with returncode 1 is the
no-match exit of rg, anything else is re-raised. -/
def call_tool (procOutcome : Except ProcessError String) :
    Except ProcessError String :=
  match procOutcome with
  | Except.ok out =>
    let nmatch := out.data.count '\n'
    if nmatch > MAX_RESULTS then
      Except.ok (String.intercalate "\n" ((out.split (fun c => c == '\n')).take MAX_RESULTS)
        ++ "\n** OUTPUT TRUNCATED: " ++ toString (nmatch - MAX_RESULTS)
        ++ " matches hidden\n")
    else
      Except.ok out
  | Except.error exc =>
    if exc.returncode == 1 then Except.ok "<no matches>"
    else Except.error exc

end SearchFiles

/-! ## Concrete fixtures for witnesses and counterexamples -/

/-- A registered tool whose invocation faults. -/
def boomTool : Tool :=
  Tool.mk "boom" "always faults" Json.null (fun _ => Except.error "exploded")

/-- A registered tool whose invocation succeeds. -/
def echoTool : Tool :=
  Tool.mk "echo" "echoes" Json.null (fun _ => Except.ok "tool output")

/-- Two distinct tools sharing one name. -/
def dupToolA : Tool := Tool.mk "dup" "first" Json.null (fun _ => Except.ok "a")

/-- Second tool with the same name as dupToolA. -/
def dupToolB : Tool := Tool.mk "dup" "second" Json.null (fun _ => Except.ok "b")

/-- The 1001 match lines of the c7 witness. -/
def linesW : List String := List.replicate 1001 "m"

/-- The raw rg output built from linesW. -/
def outW : String :=
  String.mk (List.intercalate ['\n'] (linesW.map String.data) ++ ['\n'])

/-- True of a content block unless it is a ToolResult with is_error set. -/
def resultNotError : ContentBlock → Bool
  | ContentBlock.toolResult _ _ isError => !isError
  | _ => true

/-- User turns constructed by the engine carry no is_error ToolResult;
assistant turns are the model's verbatim content and are not constrained. -/
def engineTurnOk (t : Turn) : Bool :=
  match t.role with
  | Role.assistant => true
  | Role.user =>
    match t.content with
    | TurnContent.ofString _ => true
    | TurnContent.blocks bs => bs.all resultNotError

/-- The tool-use pairing invariant: every ToolUse block in an assistant turn
is immediately followed by a user turn holding exactly one ToolResult block
whose tool_use_id matches, before any later turn (hence before any later
model call, which always appends its assistant turn after the history). -/
def ToolUseAnswered (turns : List Turn) : Prop :=
  ∀ (i : Nat) (bs : List ContentBlock) (id name : String) (input : Json),
    turns[i]? = some (Turn.mk Role.assistant (TurnContent.blocks bs)) →
    ContentBlock.toolUse id name input ∈ bs →
    ∃ content, turns[i + 1]?
      = some (Turn.mk Role.user
          (TurnContent.blocks [ContentBlock.toolResult id content false]))

/-- The content blocks of a turn (empty for a plain-string turn). -/
def turnBlocks (t : Turn) : List ContentBlock :=
  match t.content with
  | TurnContent.ofString _ => []
  | TurnContent.blocks bs => bs

/-- Counts, over a whole history, the ToolResult blocks whose tool_use_id is
the given id. -/
def countResultsFor (id : String) (turns : List Turn) : Nat :=
  (turns.map (fun t => ((turnBlocks t).filter fun b =>
    match b with
    | ContentBlock.toolResult i _ _ => i == id
    | _ => false).length)).sum

/-- Whether the history contains a ToolUse block with the given id. -/
def anyToolUseWithId (id : String) (turns : List Turn) : Bool :=
  turns.any fun t => (turnBlocks t).any fun b =>
    match b with
    | ContentBlock.toolUse i _ _ => i == id
    | _ => false

/-- A response whose ToolUse sits in non-final position. -/
def c3msgA : Message :=
  Message.mk Role.assistant
    [ContentBlock.toolUse "x1" "list" Json.null, ContentBlock.text "bye"]

/-- First prompt: the model returns c3msgA; the engine inspects only the
final (text) block, so it returns without dispatching the tool. -/
def c3runA : List Turn × List Message × Except EngineError Message :=
  Conversation.user_prompt (mkConversation []) [c3msgA] "hi"

/-- Second prompt on the same history: a further model call occurs. -/
def c3runB : List Turn × List Message × Except EngineError Message :=
  Conversation.user_prompt (Conversation.mk [] c3runA.1)
    [Message.mk Role.assistant [ContentBlock.text "second"]] "again"

/-! ## Theorems -/

/-- Claim C1 (code-bug evidence): a fault raised by a registered tool's
invocation is NOT caught at the dispatch boundary.  With tool "boom" whose
call_tool faults, user_prompt ends with that fault as its outcome: no
ToolResult block (is_error or otherwise) is appended and no further model
call happens, contradicting the claim that the fault is converted into an
is_error ToolResult and the loop continues. -/
theorem c1_tool_fault_propagates :
    Conversation.user_prompt (mkConversation [boomTool])
      [Message.mk Role.assistant [ContentBlock.toolUse "b1" "boom" Json.null]] "go"
    = ([Turn.mk Role.user (TurnContent.ofString "go"),
        Turn.mk Role.assistant
          (TurnContent.blocks [ContentBlock.toolUse "b1" "boom" Json.null])],
       [], Except.error (EngineError.toolFault "boom" "exploded")) := rfl

/-- Claim C2 (counterexample): when the final block names a tool absent from
the registry, the engine does NOT synthesize an is_error ToolResult; the
lookup failure (KeyError) aborts user_prompt, with no ToolResult block in the
history. -/
theorem c2_counterexample :
    Conversation.user_prompt (mkConversation [])
      [Message.mk Role.assistant [ContentBlock.toolUse "g1" "ghost" Json.null]] "hi"
    = ([Turn.mk Role.user (TurnContent.ofString "hi"),
        Turn.mk Role.assistant
          (TurnContent.blocks [ContentBlock.toolUse "g1" "ghost" Json.null])],
       [], Except.error (EngineError.toolNotFound "ghost")) := rfl

/-- Claim C2 (amended): for every model response whose final content block is
a ToolUse naming a tool absent from the registry, the lookup failure
propagates out of user_prompt (the Python KeyError): the loop makes no
further model call, and no ToolResult block is synthesized — the history
gains only the prompt turn and the assistant turn. -/
theorem c2_amended_unknown_tool_raises (c : Conversation) (p : String)
    (m : Message) (rest : List Message) (id name : String) (input : Json)
    (hlast : m.content.getLast? = some (ContentBlock.toolUse id name input))
    (hmiss : lookupTool c.tools name = none) :
    Conversation.user_prompt c (m :: rest) p
      = (c.turns ++ [Turn.mk Role.user (TurnContent.ofString p),
                     Turn.mk m.role (TurnContent.blocks m.content)],
         rest, Except.error (EngineError.toolNotFound name)) := by
  unfold Conversation.user_prompt userPromptLoop
  rw [hlast]
  dsimp only
  rw [hmiss]
  simp [List.append_assoc]

/-- Witness for c2_amended_unknown_tool_raises at a concrete input. -/
theorem c2_amended_witness :
    ((Message.mk Role.assistant
        [ContentBlock.toolUse "g2" "phantom" Json.null]).content.getLast?
      = some (ContentBlock.toolUse "g2" "phantom" Json.null))
    ∧ lookupTool (mkConversation []).tools "phantom" = none
    ∧ Conversation.user_prompt (mkConversation [])
        [Message.mk Role.assistant [ContentBlock.toolUse "g2" "phantom" Json.null]] "x"
      = ((mkConversation []).turns
          ++ [Turn.mk Role.user (TurnContent.ofString "x"),
              Turn.mk Role.assistant
                (TurnContent.blocks [ContentBlock.toolUse "g2" "phantom" Json.null])],
         [], Except.error (EngineError.toolNotFound "phantom")) :=
  ⟨rfl, rfl, c2_amended_unknown_tool_raises _ _ _ _ _ _ _ rfl rfl⟩

/-- Claim C5: when the first model response's final content block is not a
ToolUse, user_prompt consumes exactly one scripted response (one model call),
appends exactly the user prompt turn and the verbatim assistant turn, and
returns that response as the final answer. -/
theorem c5_final_text_single_call (c : Conversation) (p : String) (m : Message)
    (rest : List Message) (b : ContentBlock)
    (hlast : m.content.getLast? = some b) (hb : b.isToolUse = false) :
    Conversation.user_prompt c (m :: rest) p
      = (c.turns ++ [Turn.mk Role.user (TurnContent.ofString p),
                     Turn.mk m.role (TurnContent.blocks m.content)],
         rest, Except.ok m) := by
  unfold Conversation.user_prompt userPromptLoop
  rw [hlast]
  cases b with
  | toolUse id name input => simp [ContentBlock.isToolUse] at hb
  | text s => simp [List.append_assoc]
  | toolResult id content isError => simp [List.append_assoc]

/-- Witness for c5_final_text_single_call at a concrete input. -/
theorem c5_witness :
    ((Message.mk Role.assistant [ContentBlock.text "answer"]).content.getLast?
      = some (ContentBlock.text "answer"))
    ∧ (ContentBlock.text "answer").isToolUse = false
    ∧ Conversation.user_prompt (mkConversation [echoTool])
        [Message.mk Role.assistant [ContentBlock.text "answer"],
         Message.mk Role.assistant [ContentBlock.text "unused"]] "q"
      = ((mkConversation [echoTool]).turns
          ++ [Turn.mk Role.user (TurnContent.ofString "q"),
              Turn.mk Role.assistant (TurnContent.blocks [ContentBlock.text "answer"])],
         [Message.mk Role.assistant [ContentBlock.text "unused"]],
         Except.ok (Message.mk Role.assistant [ContentBlock.text "answer"])) :=
  ⟨rfl, rfl, c5_final_text_single_call _ _ _ _ _ rfl rfl⟩

/-- Unfolding intercalate over a two-or-more element list. -/
theorem intercalate_cons_cons (x : Char) (a b : List Char) (t : List (List Char)) :
    List.intercalate [x] (a :: b :: t) = a ++ x :: List.intercalate [x] (b :: t) := by
  simp [List.intercalate, List.intersperse_cons_cons]

/-- Counting the separator in an intercalation of separator-free pieces. -/
theorem count_intercalate_sep (x : Char) :
    ∀ ls : List (List Char), (∀ l ∈ ls, x ∉ l) →
    (List.intercalate [x] ls).count x = ls.length - 1
  | [], _ => by simp [List.intercalate]
  | [a], h => by
    simp only [List.intercalate, List.intersperse_singleton, List.flatten,
      List.append_nil, List.length_singleton]
    exact List.count_eq_zero.mpr (h a (List.mem_singleton_self a))
  | a :: b :: t, h => by
    have ih := count_intercalate_sep x (b :: t)
      (fun l hl => h l (List.mem_cons_of_mem a hl))
    rw [intercalate_cons_cons, List.count_append, List.count_cons, ih]
    have ha : (List.count x a) = 0 :=
      List.count_eq_zero.mpr (h a (List.mem_cons_self a (b :: t)))
    simp [ha]

/-- Appending an empty final piece to an intercalation appends one trailing
separator. -/
theorem intercalate_concat_nil (x : Char) :
    ∀ ls : List (List Char), ls ≠ [] →
    List.intercalate [x] (ls ++ [[]]) = List.intercalate [x] ls ++ [x]
  | [], h => absurd rfl h
  | [a], _ => by simp [List.intercalate, List.intersperse]
  | a :: b :: t, _ => by
    have ih := intercalate_concat_nil x (b :: t) (by simp)
    rw [show (a :: b :: t) ++ [[]] = a :: b :: (t ++ [[]]) from rfl]
    rw [intercalate_cons_cons, intercalate_cons_cons]
    rw [show (b : List Char) :: (t ++ [[]]) = (b :: t) ++ [[]] from rfl, ih]
    simp

/-- Claim C7: when the raw search output consists of the match lines L
(newline-free, one line per match, each newline-terminated) and there are
more lines than MAX_RESULTS, call_tool returns exactly the first MAX_RESULTS
result lines joined by newlines, followed by one trailing marker line whose
reported hidden count is the total number of matches minus the cap. -/
theorem c7_search_truncation (L : List String) (out : String)
    (hout : out.data = List.intercalate ['\n'] (L.map String.data) ++ ['\n'])
    (hL : ∀ l ∈ L, '\n' ∉ l.data)
    (hlen : SearchFiles.MAX_RESULTS < L.length) :
    SearchFiles.call_tool (Except.ok out)
      = Except.ok (String.intercalate "\n" (L.take SearchFiles.MAX_RESULTS)
          ++ "\n** OUTPUT TRUNCATED: " ++ toString (L.length - SearchFiles.MAX_RESULTS)
          ++ " matches hidden\n") := by
  have hne : L ≠ [] := by
    intro h
    rw [h] at hlen
    simp [SearchFiles.MAX_RESULTS] at hlen
  have hLdata : ∀ l ∈ L.map String.data, '\n' ∉ l := by
    intro l hl
    obtain ⟨s, hs, rfl⟩ := List.mem_map.mp hl
    exact hL s hs
  have hlen1 : 1 ≤ L.length := by
    cases L with
    | nil => exact absurd rfl hne
    | cons a t => simp
  have hcount : out.data.count '\n' = L.length := by
    rw [hout, List.count_append]
    rw [count_intercalate_sep '\n' (L.map String.data) hLdata]
    simp only [List.length_map, List.count_cons, List.count_nil]
    simp
    omega
  have hmapne : L.map String.data ≠ [] := by simpa using hne
  have hsplit : out.split (fun c => c == '\n') = L ++ [""] := by
    rw [String.split_of_valid]
    have hdata2 : out.data = List.intercalate ['\n'] (L.map String.data ++ [[]]) := by
      rw [hout, intercalate_concat_nil '\n' (L.map String.data) hmapne]
    rw [hdata2]
    have hsp : List.splitOnP (fun c => c == '\n')
        (List.intercalate ['\n'] (L.map String.data ++ [[]]))
        = L.map String.data ++ [[]] := by
      have h2 := List.splitOn_intercalate (L.map String.data ++ [[]]) '\n' ?sepfree ?nonempty
      case sepfree =>
        intro l hl
        rcases List.mem_append.mp hl with h | h
        · exact hLdata l h
        · rw [List.mem_singleton.mp h]
          simp
      case nonempty => simp
      simpa [List.splitOn] using h2
    rw [hsp, List.map_append, List.map_map]
    have hcomp : String.mk ∘ String.data = id := funext fun _ => rfl
    rw [hcomp, List.map_id]
    rfl
  simp only [SearchFiles.call_tool]
  rw [hcount, hsplit]
  rw [if_pos hlen]
  rw [List.take_append_of_le_length (le_of_lt hlen)]

/-- Witness for c7_search_truncation at a concrete 1001-line output. -/
theorem c7_witness :
    outW.data = List.intercalate ['\n'] (linesW.map String.data) ++ ['\n']
    ∧ (∀ l ∈ linesW, '\n' ∉ l.data)
    ∧ SearchFiles.MAX_RESULTS < linesW.length
    ∧ SearchFiles.call_tool (Except.ok outW)
        = Except.ok (String.intercalate "\n" (linesW.take SearchFiles.MAX_RESULTS)
            ++ "\n** OUTPUT TRUNCATED: "
            ++ toString (linesW.length - SearchFiles.MAX_RESULTS)
            ++ " matches hidden\n") := by
  have h1 : ∀ l ∈ linesW, '\n' ∉ l.data := by
    intro l hl
    rw [List.eq_of_mem_replicate hl]
    decide
  have h2 : SearchFiles.MAX_RESULTS < linesW.length := by
    have hl : linesW.length = 1001 := by
      rw [show linesW = List.replicate 1001 "m" from rfl, List.length_replicate]
    rw [hl]
    decide
  exact ⟨rfl, h1, h2, c7_search_truncation linesW outW rfl h1 h2⟩

/-- Claim C8 (code-bug evidence): a search-process failure other than the
zero-matches exit (returncode 1) is re-raised by SearchFiles.call_tool, not
converted to an error result: with returncode 2 the CalledProcessError
propagates unchanged. -/
theorem c8_nonzero_exit_propagates :
    SearchFiles.call_tool (Except.error (SearchFiles.ProcessError.mk 2))
      = Except.error (SearchFiles.ProcessError.mk 2) := rfl

/-- Claim C9 (counterexample): building the registry from a tool list with a
duplicate name does not fail: the dict comprehension silently keeps the
later tool, so construction succeeds and resolves "dup" to dupToolB. -/
theorem c9_counterexample :
    buildTools [dupToolA, dupToolB] = [("dup", dupToolB)]
    ∧ lookupTool (buildTools [dupToolA, dupToolB]) "dup" = some dupToolB :=
  ⟨rfl, rfl⟩

/-- Inserting a key into the dict makes lookup of that key return the new
value, whether or not the key was present. -/
theorem lookup_dictInsert_self (m : List (String × Tool)) (k : String) (v : Tool) :
    lookupTool (dictInsert m k v) k = some v := by
  induction m with
  | nil => simp [dictInsert, lookupTool, List.find?]
  | cons kv rest ih =>
    obtain ⟨k', v'⟩ := kv
    by_cases h : (k' == k) = true
    · simp [dictInsert, h, lookupTool, List.find?]
    · simp only [dictInsert, h, if_false, Bool.false_eq_true]
      simpa [lookupTool, List.find?, h] using ih

/-- Claim C9 (amended): registry construction never fails on a duplicate
name; a tool registered while its name already exists silently replaces the
earlier tool (the last registration wins). -/
theorem c9_amended_last_wins (ts : List Tool) (t₁ t₂ : Tool)
    (_hdup : t₁.name = t₂.name) :
    lookupTool (buildTools (ts ++ [t₁, t₂])) t₂.name = some t₂ := by
  have h : buildTools (ts ++ [t₁, t₂])
      = dictInsert (dictInsert (buildTools ts) t₁.name t₁) t₂.name t₂ := by
    simp [buildTools, List.foldl_append]
  rw [h]
  exact lookup_dictInsert_self _ _ _

/-- Witness for c9_amended_last_wins at a concrete input. -/
theorem c9_amended_witness :
    dupToolA.name = dupToolB.name
    ∧ lookupTool (buildTools ([echoTool] ++ [dupToolA, dupToolB])) dupToolB.name
        = some dupToolB :=
  ⟨rfl, c9_amended_last_wins [echoTool] dupToolA dupToolB rfl⟩

/-- The loop only appends turns: whatever happens (success, transport
exhaustion, missing tool, tool fault), the turns on entry are an unchanged
prefix of the turns on exit; and when every response carries the assistant
role, every appended user turn is engine-built and carries no is_error
ToolResult. -/
theorem userPromptLoop_appends (rs : List Message) :
    ∀ (tools : List (String × Tool)) (turns : List Turn),
    ∃ Δ : List Turn, (userPromptLoop tools rs turns).1 = turns ++ Δ ∧
      ((∀ m ∈ rs, m.role = Role.assistant) → Δ.all engineTurnOk = true) := by
  induction rs with
  | nil =>
    intro tools turns
    exact ⟨[], by simp [userPromptLoop], fun _ => rfl⟩
  | cons m rest ih =>
    intro tools turns
    have hrole : (∀ m' ∈ m :: rest, m'.role = Role.assistant) →
        engineTurnOk (Turn.mk m.role (TurnContent.blocks m.content)) = true := by
      intro hroles
      have hm := hroles m (List.mem_cons_self m rest)
      simp [engineTurnOk, hm]
    cases hlast : m.content.getLast? with
    | none =>
      refine ⟨[Turn.mk m.role (TurnContent.blocks m.content)],
        by simp [userPromptLoop, hlast], ?_⟩
      intro hroles
      simp [hrole hroles]
    | some b =>
      cases b with
      | text s =>
        refine ⟨[Turn.mk m.role (TurnContent.blocks m.content)],
          by simp [userPromptLoop, hlast], ?_⟩
        intro hroles
        simp [hrole hroles]
      | toolResult id content isError =>
        refine ⟨[Turn.mk m.role (TurnContent.blocks m.content)],
          by simp [userPromptLoop, hlast], ?_⟩
        intro hroles
        simp [hrole hroles]
      | toolUse id name input =>
        cases hlook : lookupTool tools name with
        | none =>
          refine ⟨[Turn.mk m.role (TurnContent.blocks m.content)],
            by simp [userPromptLoop, hlast, hlook], ?_⟩
          intro hroles
          simp [hrole hroles]
        | some t =>
          cases hcall : t.call_tool input with
          | error e =>
            refine ⟨[Turn.mk m.role (TurnContent.blocks m.content)],
              by simp [userPromptLoop, hlast, hlook, hcall], ?_⟩
            intro hroles
            simp [hrole hroles]
          | ok response =>
            obtain ⟨Δ', hΔ', hok'⟩ := ih tools
              (turns ++ [Turn.mk m.role (TurnContent.blocks m.content)]
                ++ [Turn.mk Role.user
                      (TurnContent.blocks [ContentBlock.toolResult id response false])])
            refine ⟨[Turn.mk m.role (TurnContent.blocks m.content),
                     Turn.mk Role.user
                       (TurnContent.blocks [ContentBlock.toolResult id response false])]
                    ++ Δ', ?_, ?_⟩
            · have hres : userPromptLoop tools (m :: rest) turns
                  = userPromptLoop tools rest
                      (turns ++ [Turn.mk m.role (TurnContent.blocks m.content)]
                        ++ [Turn.mk Role.user
                            (TurnContent.blocks
                              [ContentBlock.toolResult id response false])]) := by
                simp [userPromptLoop, hlast, hlook, hcall]
              rw [hres, hΔ']
              simp [List.append_assoc]
            · intro hroles
              have htail := hok' (fun m' hm' => hroles m' (List.mem_cons_of_mem m hm'))
              have hma := hroles m (List.mem_cons_self m rest)
              simp [engineTurnOk, resultNotError, hma, htail]

/-- Claim C4: the turn history is append-only.  For every conversation
state, scripted transport and prompt, the turns already present are an
unchanged prefix of the turns after user_prompt, whatever the outcome
(success or any fault), so partial progress survives a failure. -/
theorem c4_history_append_only (c : Conversation) (rs : List Message) (p : String) :
    ∃ Δ : List Turn, (Conversation.user_prompt c rs p).1 = c.turns ++ Δ := by
  obtain ⟨Δ, hΔ, -⟩ := userPromptLoop_appends rs c.tools
    (c.turns ++ [Turn.mk Role.user (TurnContent.ofString p)])
  refine ⟨[Turn.mk Role.user (TurnContent.ofString p)] ++ Δ, ?_⟩
  rw [Conversation.user_prompt, hΔ, List.append_assoc]

/-- Claim C10: every turn the engine itself appends during user_prompt (the
turns beyond the original history) that is a user turn — the prompt turn and
the engine-built tool-result turns — contains no ToolResult with is_error
true: the engine always writes is_error=False, whatever the tool returned. -/
theorem c10_engine_results_never_error (c : Conversation) (rs : List Message)
    (p : String) (hroles : ∀ m ∈ rs, m.role = Role.assistant) :
    (((Conversation.user_prompt c rs p).1).drop c.turns.length).all engineTurnOk
      = true := by
  obtain ⟨Δ, hΔ, hok⟩ := userPromptLoop_appends rs c.tools
    (c.turns ++ [Turn.mk Role.user (TurnContent.ofString p)])
  rw [Conversation.user_prompt, hΔ, List.append_assoc, List.drop_left]
  simp [hok hroles, engineTurnOk]

/-- Witness for c10_engine_results_never_error on a run that appends a
tool-result turn. -/
theorem c10_witness :
    (∀ m ∈ [Message.mk Role.assistant [ContentBlock.toolUse "u1" "echo" Json.null],
            Message.mk Role.assistant [ContentBlock.text "done"]],
        m.role = Role.assistant)
    ∧ (((Conversation.user_prompt (mkConversation [echoTool])
          [Message.mk Role.assistant [ContentBlock.toolUse "u1" "echo" Json.null],
           Message.mk Role.assistant [ContentBlock.text "done"]] "hi").1).drop
            (mkConversation [echoTool]).turns.length).all engineTurnOk = true := by
  have hroles : ∀ m ∈ [Message.mk Role.assistant [ContentBlock.toolUse "u1" "echo" Json.null],
      Message.mk Role.assistant [ContentBlock.text "done"]], m.role = Role.assistant := by
    intro m hm
    rcases List.mem_cons.mp hm with h | h
    · rw [h]
    · rw [List.mem_singleton.mp h]
  exact ⟨hroles, c10_engine_results_never_error (mkConversation [echoTool]) _ "hi" hroles⟩

/-- An element of a list with a known last element is in the dropLast part
or is that last element. -/
theorem mem_dropLast_or_eq_of_getLast {α : Type} {l : List α} {b x : α}
    (hlast : l.getLast? = some b) (hx : x ∈ l) : x ∈ l.dropLast ∨ x = b := by
  have hne : l ≠ [] := by intro h; rw [h] at hlast; simp at hlast
  have hgl : l.getLast hne = b := by
    have h2 := List.getLast?_eq_getLast l hne
    rw [hlast] at h2
    exact (Option.some_inj.mp h2).symm
  have hdecomp := List.dropLast_append_getLast hne
  rw [← hdecomp] at hx
  rcases List.mem_append.mp hx with h | h
  · exact Or.inl h
  · right
    exact (List.mem_singleton.mp h).trans hgl

/-- Appending one turn that is not an assistant turn carrying a ToolUse
preserves the pairing invariant. -/
theorem toolUseAnswered_append_safe (turns : List Turn) (t : Turn)
    (ht : ∀ (bs : List ContentBlock) (id name : String) (input : Json),
      t = Turn.mk Role.assistant (TurnContent.blocks bs) →
      ContentBlock.toolUse id name input ∈ bs → False)
    (h : ToolUseAnswered turns) : ToolUseAnswered (turns ++ [t]) := by
  intro i bs id name input hget hmem
  by_cases hi : i < turns.length
  · rw [List.getElem?_append_left hi] at hget
    obtain ⟨content, hsucc⟩ := h i bs id name input hget hmem
    have hi1 : i + 1 < turns.length := (List.getElem?_eq_some.mp hsucc).1
    exact ⟨content, by rw [List.getElem?_append_left hi1]; exact hsucc⟩
  · push_neg at hi
    rw [List.getElem?_append_right hi] at hget
    have hlt : i - turns.length < 1 := by
      have := (List.getElem?_eq_some.mp hget).1
      simpa using this
    have h0 : i - turns.length = 0 := by omega
    rw [h0] at hget
    simp only [List.getElem?_cons_zero, Option.some_inj] at hget
    exact (ht bs id name input hget hmem).elim

/-- Appending an assistant turn whose only ToolUse is a given block,
immediately followed by the user turn holding exactly the matching
ToolResult, preserves the pairing invariant. -/
theorem toolUseAnswered_append_pair (turns : List Turn) (m : Message)
    (id name : String) (input : Json) (response : String)
    (honly : ∀ b ∈ m.content, b.isToolUse = true →
      b = ContentBlock.toolUse id name input)
    (h : ToolUseAnswered turns) :
    ToolUseAnswered (turns
      ++ [Turn.mk m.role (TurnContent.blocks m.content)]
      ++ [Turn.mk Role.user
            (TurnContent.blocks [ContentBlock.toolResult id response false])]) := by
  intro i bs id' name' input' hget hmem
  rw [List.append_assoc] at hget ⊢
  by_cases hi : i < turns.length
  · rw [List.getElem?_append_left hi] at hget
    obtain ⟨content, hsucc⟩ := h i bs id' name' input' hget hmem
    have hi1 : i + 1 < turns.length := (List.getElem?_eq_some.mp hsucc).1
    exact ⟨content, by rw [List.getElem?_append_left hi1]; exact hsucc⟩
  · push_neg at hi
    rw [List.getElem?_append_right hi] at hget
    have hlt : i - turns.length < 2 := by
      have := (List.getElem?_eq_some.mp hget).1
      simpa using this
    rcases Nat.lt_or_ge (i - turns.length) 1 with h0 | h1
    · have h0' : i - turns.length = 0 := by omega
      rw [h0'] at hget
      simp only [List.cons_append, List.nil_append, List.getElem?_cons_zero,
        Option.some_inj] at hget
      have hcontent : m.content = bs := by
        injection hget with h1 h2
        injection h2
      rw [← hcontent] at hmem
      have hb := honly (ContentBlock.toolUse id' name' input') hmem rfl
      have hid : id' = id := by injection hb
      refine ⟨response, ?_⟩
      rw [List.getElem?_append_right (by omega : turns.length ≤ i + 1)]
      have h1' : i + 1 - turns.length = 1 := by omega
      rw [h1', hid]
      rfl
    · have h1' : i - turns.length = 1 := by omega
      rw [h1'] at hget
      simp only [List.cons_append, List.nil_append, List.getElem?_cons_succ,
        List.getElem?_cons_zero, Option.some_inj] at hget
      injection hget with h2 h3
      simp at h2

/-- The loop preserves the pairing invariant on every run that ends with the
model's final answer, provided each response carries tool-use blocks only in
final position (the engine inspects only the final block, so an earlier
ToolUse would never be answered). -/
theorem userPromptLoop_answered (rs : List Message) :
    ∀ (tools : List (String × Tool)) (turns : List Turn),
    ToolUseAnswered turns →
    (∀ m ∈ rs, ∀ b ∈ m.content.dropLast, b.isToolUse = false) →
    ∀ msg : Message, (userPromptLoop tools rs turns).2.2 = Except.ok msg →
    ToolUseAnswered (userPromptLoop tools rs turns).1 := by
  induction rs with
  | nil =>
    intro tools turns _ _ msg hok
    simp [userPromptLoop] at hok
  | cons m rest ih =>
    intro tools turns hturns hfinal msg hok
    have hfm : ∀ b ∈ m.content.dropLast, b.isToolUse = false :=
      hfinal m (List.mem_cons_self m rest)
    cases hlast : m.content.getLast? with
    | none => simp [userPromptLoop, hlast] at hok
    | some b =>
      cases b with
      | toolUse id name input =>
        cases hlook : lookupTool tools name with
        | none => simp [userPromptLoop, hlast, hlook] at hok
        | some t =>
          cases hcall : t.call_tool input with
          | error e => simp [userPromptLoop, hlast, hlook, hcall] at hok
          | ok response =>
            have hres : userPromptLoop tools (m :: rest) turns
                = userPromptLoop tools rest
                    (turns ++ [Turn.mk m.role (TurnContent.blocks m.content)]
                      ++ [Turn.mk Role.user (TurnContent.blocks
                           [ContentBlock.toolResult id response false])]) := by
              simp [userPromptLoop, hlast, hlook, hcall]
            rw [hres] at hok ⊢
            refine ih tools _ ?_
              (fun m' hm' => hfinal m' (List.mem_cons_of_mem m hm')) msg hok
            refine toolUseAnswered_append_pair turns m id name input response ?_ hturns
            intro b' hb' hbuse
            rcases mem_dropLast_or_eq_of_getLast hlast hb' with hmem | heq
            · rw [hfm b' hmem] at hbuse
              cases hbuse
            · exact heq
      | text s =>
        have hres : userPromptLoop tools (m :: rest) turns
            = (turns ++ [Turn.mk m.role (TurnContent.blocks m.content)],
               rest, Except.ok m) := by
          simp [userPromptLoop, hlast]
        rw [hres]
        refine toolUseAnswered_append_safe turns _ ?_ hturns
        intro bs id name input hteq hmem
        have hcontent : m.content = bs := by
          injection hteq with h1 h2
          injection h2
        rw [← hcontent] at hmem
        rcases mem_dropLast_or_eq_of_getLast hlast hmem with hmem' | heq
        · have := hfm _ hmem'
          simp [ContentBlock.isToolUse] at this
        · simp at heq
      | toolResult id2 content2 isError2 =>
        have hres : userPromptLoop tools (m :: rest) turns
            = (turns ++ [Turn.mk m.role (TurnContent.blocks m.content)],
               rest, Except.ok m) := by
          simp [userPromptLoop, hlast]
        rw [hres]
        refine toolUseAnswered_append_safe turns _ ?_ hturns
        intro bs id name input hteq hmem
        have hcontent : m.content = bs := by
          injection hteq with h1 h2
          injection h2
        rw [← hcontent] at hmem
        rcases mem_dropLast_or_eq_of_getLast hlast hmem with hmem' | heq
        · have := hfm _ hmem'
          simp [ContentBlock.isToolUse] at this
        · simp at heq

/-- Claim C3 (amended): provided every model response places ToolUse blocks
only in final position (the deliberate single-tool-call policy) and the run
ends with a final answer, every ToolUse block of every assistant turn in the
resulting history — starting from a history satisfying the invariant — is
immediately followed by a user turn holding exactly one ToolResult with the
matching tool_use_id, before any subsequent model call.  (A ToolUse in
non-final position is never answered; see the counterexample.) -/
theorem c3_amended_final_tool_use_answered (c : Conversation) (rs : List Message)
    (p : String) (hinit : ToolUseAnswered c.turns)
    (hfinal : ∀ m ∈ rs, ∀ b ∈ m.content.dropLast, b.isToolUse = false)
    (msg : Message) (hok : (Conversation.user_prompt c rs p).2.2 = Except.ok msg) :
    ToolUseAnswered (Conversation.user_prompt c rs p).1 := by
  rw [Conversation.user_prompt] at hok ⊢
  refine userPromptLoop_answered rs c.tools _ ?_ hfinal msg hok
  refine toolUseAnswered_append_safe c.turns _ ?_ hinit
  intro bs id name input hteq hmem
  injection hteq with h1 h2
  simp at h1

/-- Claim C3 (counterexample): a reachable history can contain a ToolUse
block (in non-final position of an assistant turn) for which no matching
ToolResult is ever appended, even though a subsequent model call is made:
both user_prompt calls succeed, the history contains the ToolUse with id
"x1", and zero ToolResult blocks with that id. -/
theorem c3_counterexample :
    c3runA.2.2 = Except.ok c3msgA
    ∧ anyToolUseWithId "x1" c3runB.1 = true
    ∧ countResultsFor "x1" c3runB.1 = 0
    ∧ c3runB.2.2 = Except.ok (Message.mk Role.assistant [ContentBlock.text "second"]) :=
  ⟨rfl, rfl, rfl, rfl⟩

/-- Witness for c3_amended_final_tool_use_answered on a run with one
tool-dispatch round. -/
theorem c3_amended_witness :
    ToolUseAnswered (mkConversation [echoTool]).turns
    ∧ (∀ m ∈ [Message.mk Role.assistant [ContentBlock.toolUse "u1" "echo" Json.null],
              Message.mk Role.assistant [ContentBlock.text "done"]],
        ∀ b ∈ m.content.dropLast, b.isToolUse = false)
    ∧ (Conversation.user_prompt (mkConversation [echoTool])
        [Message.mk Role.assistant [ContentBlock.toolUse "u1" "echo" Json.null],
         Message.mk Role.assistant [ContentBlock.text "done"]] "hi").2.2
        = Except.ok (Message.mk Role.assistant [ContentBlock.text "done"])
    ∧ ToolUseAnswered (Conversation.user_prompt (mkConversation [echoTool])
        [Message.mk Role.assistant [ContentBlock.toolUse "u1" "echo" Json.null],
         Message.mk Role.assistant [ContentBlock.text "done"]] "hi").1 := by
  have hinit : ToolUseAnswered (mkConversation [echoTool]).turns := by
    intro i bs id name input hget _
    simp [mkConversation] at hget
  have hfinal : ∀ m ∈ [Message.mk Role.assistant
        [ContentBlock.toolUse "u1" "echo" Json.null],
      Message.mk Role.assistant [ContentBlock.text "done"]],
      ∀ b ∈ m.content.dropLast, b.isToolUse = false := by
    decide
  exact ⟨hinit, hfinal, rfl,
    c3_amended_final_tool_use_answered (mkConversation [echoTool]) _ "hi" hinit hfinal
      (Message.mk Role.assistant [ContentBlock.text "done"]) rfl⟩

/-- Decoding inverts encoding on a content block. -/
theorem decodeBlock_encodeBlock (b : ContentBlock) :
    decodeBlock (encodeBlock b) = some b := by
  cases b <;> rfl

/-- Decoding inverts encoding on a list of content blocks. -/
theorem decodeBlocks_encode (bs : List ContentBlock) :
    decodeBlocks (bs.map encodeBlock) = some bs := by
  induction bs with
  | nil => rfl
  | cons b bs ih => simp [decodeBlocks, decodeBlock_encodeBlock, ih]

/-- Decoding inverts encoding on turn content. -/
theorem decodeContent_encodeContent (c : TurnContent) :
    decodeContent (encodeContent c) = some c := by
  cases c with
  | ofString s => rfl
  | blocks bs => simp [encodeContent, decodeContent, decodeBlocks_encode]

/-- Decoding inverts encoding on a role. -/
theorem decodeRole_encodeRole (r : Role) : decodeRole (encodeRole r) = some r := by
  cases r <;> rfl

/-- Decoding inverts encoding on a turn. -/
theorem decodeTurn_encodeTurn (t : Turn) : decodeTurn (encodeTurn t) = some t := by
  obtain ⟨r, c⟩ := t
  simp [encodeTurn, decodeTurn, decodeRole_encodeRole, decodeContent_encodeContent]

/-- Decoding inverts encoding on a list of turns. -/
theorem decodeTurnList_encode (ts : List Turn) :
    decodeTurnList (ts.map encodeTurn) = some ts := by
  induction ts with
  | nil => rfl
  | cons t ts ih => simp [decodeTurnList, decodeTurn_encodeTurn, ih]

/-- Claim C6: the transcript round-trips.  Deserializing the serialized turn
history of any state yields the original turns; and continuing a
conversation seeded with a deserialized transcript serializes to the
original serialized turns as an unchanged prefix with only the new turns'
encodings appended after it. -/
theorem c6_transcript_roundtrip :
    (∀ ts : List Turn, deserializeTurns (serializeTurns ts) = some ts)
    ∧ ∀ (tools : List (String × Tool)) (ts : List Turn) (rs : List Message)
        (p : String),
        ∃ Δ : List Turn,
          serializeTurns ((Conversation.user_prompt (Conversation.mk tools ts) rs p).1)
            = Json.arr (ts.map encodeTurn ++ Δ.map encodeTurn) := by
  constructor
  · intro ts
    simp [serializeTurns, deserializeTurns, decodeTurnList_encode]
  · intro tools ts rs p
    obtain ⟨Δ, hΔ⟩ := c4_history_append_only (Conversation.mk tools ts) rs p
    refine ⟨Δ, ?_⟩
    rw [hΔ]
    simp [serializeTurns]

end Claudesrc
